import Mathlib

/-!
Verification of the cryptocurrency ledger core of `exonum_test_task`
(`src/backend/src/wallet.rs` and `src/backend/src/transactions.rs`).

Machine integers (`u64`) are modelled as `Nat` with explicit wrap-around
`% 2 ^ 64` at every arithmetic operation that the Rust code performs on
`u64` values, matching two's-complement wrapping semantics.

Public keys and hashes are modelled as `Nat` (their only operations in the
verified code are equality tests).

The `Schema` type (the storage glue calling into `wallet.rs`) is not part
of the provided sources; the schema operations are modelled from the spec's
ledger-primitive descriptions (§3, §4.1) on top of the `Wallet` methods
that are in the sources.
-/

namespace ExonumLedger

/-- The modulus of `u64` arithmetic. -/
def U64 : Nat := 2 ^ 64

/-- Wrapping `u64` addition. -/
def add64 (a b : Nat) : Nat := (a + b) % U64

/-- Wrapping `u64` subtraction (`a - b` in two's complement, wrapping on
underflow). -/
def sub64 (a b : Nat) : Nat := (a % U64 + (U64 - b % U64)) % U64

/-- Wallet record, from `wallet.rs` (`struct Wallet`). -/
structure Wallet where
  pub_key : Nat
  name : String
  balance : Nat
  pending_balance : Nat
  pending_txs : List Nat
  history_len : Nat
  history_hash : Nat
deriving DecidableEq

/-- Source `Wallet::set_balance`: copy with updated balance, `history_len + 1`,
and the supplied history hash (`wallet.rs` lines 67-77). -/
def Wallet.set_balance (w : Wallet) (balance : Nat) (history_hash : Nat) : Wallet :=
  { w with
    balance := balance
    history_len := w.history_len + 1
    history_hash := history_hash }

/-- Source `Wallet::set_pending_balance`: copy with updated pending balance;
`history_len` and `history_hash` are passed through unchanged
(`wallet.rs` lines 79-89). -/
def Wallet.set_pending_balance (w : Wallet) (balance : Nat) : Wallet :=
  { w with pending_balance := balance }

/-- Source `Wallet::add_pending_tx`: push `tx_hash` onto `pending_txs`; history
fields unchanged (`wallet.rs` lines 91-103). -/
def Wallet.add_pending_tx (w : Wallet) (tx_hash : Nat) : Wallet :=
  { w with pending_txs := w.pending_txs ++ [tx_hash] }

/-- Remove the first occurrence of `h`, if any — mirrors
`pending_txs.iter().position(..)` followed by `remove(index)`. -/
def removeFirst : List Nat → Nat → List Nat
  | [], _ => []
  | x :: xs, h => if x = h then xs else x :: removeFirst xs h

/-- Source `Wallet::delete_pending_tx`: delete the first occurrence of `tx_hash`
from `pending_txs` when present; history fields unchanged
(`wallet.rs` lines 105-119). -/
def Wallet.delete_pending_tx (w : Wallet) (tx_hash : Nat) : Wallet :=
  { w with pending_txs := removeFirst w.pending_txs tx_hash }

/-- The ledger: the wallets table, keyed by `pub_key`. -/
abbrev Ledger : Type := List Wallet

/-- Source `Schema::wallet(pk)`: lookup by public key (first entry with that key). -/
def getWallet : Ledger → Nat → Option Wallet
  | [], _ => none
  | w :: t, pk => if w.pub_key = pk then some w else getWallet t pk

/-- Store a wallet record under its own key, replacing the entry with the
same key (the map-index `put`). -/
def putWallet : Ledger → Wallet → Ledger
  | [], _ => []
  | v :: t, w => (if v.pub_key = w.pub_key then w else v) :: putWallet t w

/-- Modelled from the spec: the rolling history digest is "recomputed to
include the new mutation's transaction hash" (§3); the concrete digest
function lives in the missing `schema.rs`/crypto layer, modelled here as an
executable combination of the previous digest and the transaction hash. -/
def hashCombine (d h : Nat) : Nat := (2 * d + h + 1) % 2 ^ 256

/-- Modelled from the spec: `Schema::create_wallet` (missing `schema.rs`);
§4.2: "create account: balance=0, pending_balance=0, empty pending set,
history_length=0". -/
def create_wallet (l : Ledger) (pk : Nat) (name : String) (h : Nat) : Ledger :=
  l ++ [{ pub_key := pk
          name := name
          balance := 0
          pending_balance := 0
          pending_txs := []
          history_len := 0
          history_hash := hashCombine 0 h }]

/-- Modelled from the spec: `Schema::increase_wallet_balance` (missing
`schema.rs`); §3 credit: "balance += amount; history updated", applied via
`Wallet::set_balance` from the sources. -/
def increase_wallet_balance (l : Ledger) (w : Wallet) (amount h : Nat) : Ledger :=
  putWallet l (w.set_balance (add64 w.balance amount) (hashCombine w.history_hash h))

/-- Modelled from the spec: `Schema::decrease_wallet_balance` (missing
`schema.rs`); §3 debit: "balance -= amount; history updated", applied via
`Wallet::set_balance` from the sources. -/
def decrease_wallet_balance (l : Ledger) (w : Wallet) (amount h : Nat) : Ledger :=
  putWallet l (w.set_balance (sub64 w.balance amount) (hashCombine w.history_hash h))

/-- Modelled from the spec: `Schema::add_tx_to_wallet` (missing
`schema.rs`); adds the proposal hash to the sender's pending set via
`Wallet::add_pending_tx` and stores the result, returning the new record
(the caller in `transactions.rs` rebinds `sender` to the return value). -/
def add_tx_to_wallet (l : Ledger) (w : Wallet) (h : Nat) : Wallet × Ledger :=
  let w' := w.add_pending_tx h
  (w', putWallet l w')

/-- Modelled from the spec: `Schema::remove_tx_from_wallet` (missing
`schema.rs`); §3 release: removes the proposal hash via
`Wallet::delete_pending_tx` and stores the result, returning the new
record. -/
def remove_tx_from_wallet (l : Ledger) (w : Wallet) (h : Nat) : Wallet × Ledger :=
  let w' := w.delete_pending_tx h
  (w', putWallet l w')

/-- Modelled from the spec: `Schema::decrease_wallet_pending_balance`
(missing `schema.rs`). Despite the source name, the spec's reserve
primitive (§3, §4.2 and Scenario D) *increases* `pending_balance` by
`amount`; applied via `Wallet::set_pending_balance` from the sources. -/
def decrease_wallet_pending_balance (l : Ledger) (w : Wallet) (amount : Nat) : Ledger :=
  putWallet l (w.set_pending_balance (add64 w.pending_balance amount))

/-- Execution-error outcomes of `transactions.rs`: the four variants of
`enum Error` plus the raw `ExecutionError::new(ERROR_SENDER_SAME_AS_RECEIVER)`. -/
inductive ExecError where
  | walletAlreadyExists
  | senderNotFound
  | receiverNotFound
  | insufficientCurrencyAmount
  | senderSameAsReceiver
deriving DecidableEq

/-- The reported `u8` code of each error outcome: the `Error` enum
discriminants 0..3 (`value as u8` in `From<Error> for ExecutionError`) and
`ERROR_SENDER_SAME_AS_RECEIVER = 0` for the same-account rejection. -/
def errorCode : ExecError → Nat
  | .walletAlreadyExists => 0
  | .senderNotFound => 1
  | .receiverNotFound => 2
  | .insufficientCurrencyAmount => 3
  | .senderSameAsReceiver => 0

/-- The transaction kinds of `WalletTransactions`, each together with its
authenticated author key (supplied by the context in the source). -/
inductive Tx where
  | transfer (author to_pk amount seed : Nat)
  | transferMultisign (author from_pk to_pk : Nat) (approvers : List Nat) (amount seed : Nat)
  | acceptMultisign (author tx_hash from_pk to_pk : Nat) (approvers : List Nat) (seed : Nat)
  | issue (author amount seed : Nat)
  | createWallet (author : Nat) (name : String)
deriving DecidableEq

/-- One transaction execution, from the five `Transaction::execute` impls in
`transactions.rs`; `ctxHash` is `context.tx_hash()`. -/
def execTx (tx : Tx) (ctxHash : Nat) (l : Ledger) : Except ExecError Ledger :=
  match tx with
  | .transfer author to_pk amount _seed =>
    if author = to_pk then .error .senderSameAsReceiver
    else
      match getWallet l author with
      | none => .error .senderNotFound
      | some sender =>
        match getWallet l to_pk with
        | none => .error .receiverNotFound
        | some receiver =>
          if sender.balance < amount then .error .insufficientCurrencyAmount
          else .ok (increase_wallet_balance
                     (decrease_wallet_balance l sender amount ctxHash)
                     receiver amount ctxHash)
  | .transferMultisign author from_pk to_pk approvers amount _seed =>
    if from_pk = to_pk then .error .senderSameAsReceiver
    else if ¬ approvers.contains author then .error .senderNotFound
    else
      match getWallet l from_pk with
      | none => .error .senderNotFound
      | some sender =>
        match getWallet l to_pk with
        | none => .error .receiverNotFound
        | some _receiver =>
          if sender.balance < amount then .error .insufficientCurrencyAmount
          else
            let p := add_tx_to_wallet l sender ctxHash
            .ok (decrease_wallet_pending_balance p.2 p.1 amount)
  | .acceptMultisign author tx_hash from_pk to_pk approvers _seed =>
    if from_pk = to_pk then .error .senderSameAsReceiver
    else
      match getWallet l from_pk with
      | none => .error .senderNotFound
      | some sender =>
        match getWallet l to_pk with
        | none => .error .receiverNotFound
        | some receiver =>
          if sender.pending_txs.contains tx_hash then
            if approvers.contains author then
              let p := remove_tx_from_wallet l sender tx_hash
              let new_amount := sub64 p.1.balance p.1.pending_balance
              .ok (increase_wallet_balance
                    (decrease_wallet_balance p.2 p.1 new_amount tx_hash)
                    receiver new_amount tx_hash)
            else .error .senderNotFound
          else .ok l
  | .issue author amount _seed =>
    match getWallet l author with
    | some wallet => .ok (increase_wallet_balance l wallet amount ctxHash)
    | none => .error .receiverNotFound
  | .createWallet author name =>
    match getWallet l author with
    | none => .ok (create_wallet l author name ctxHash)
    | some _ => .error .walletAlreadyExists

/-- Sum of all `balance` fields over the ledger. -/
def totalBalance : Ledger → Nat
  | [] => 0
  | w :: t => w.balance + totalBalance t

/-- The wallets table has pairwise distinct keys. -/
def uniqKeys (l : Ledger) : Prop := (l.map Wallet.pub_key).Nodup

instance (l : Ledger) : Decidable (uniqKeys l) := by
  unfold uniqKeys
  infer_instance

/-- Every wallet stores valid `u64` amounts. -/
def wfLedger (l : Ledger) : Prop :=
  ∀ w, w ∈ l → w.balance < U64 ∧ w.pending_balance < U64

instance (l : Ledger) : Decidable (wfLedger l) := by
  unfold wfLedger
  infer_instance

/-- The amount by which a transaction is supposed to grow the money supply:
the issued amount for `Issue`, zero for every other kind. -/
def issuedAmount : Tx → Nat
  | .issue _ amount _ => amount
  | _ => 0

/-- For an `AcceptMultisign`, the sender's earmark does not exceed its
balance (the condition under which the settled amount is a true
difference); trivially true for other kinds. -/
def acceptPendingOk (l : Ledger) : Tx → Prop
  | .acceptMultisign _ _ from_pk _ _ _ =>
    match getWallet l from_pk with
    | some w => w.pending_balance ≤ w.balance
    | none => True
  | _ => True

/-- Ledger states reachable from the initial empty wallets table by
executing any sequence of transactions, keeping only successful ones. -/
inductive Reachable : Ledger → Prop where
  | init : Reachable []
  | step {l l' : Ledger} {tx : Tx} {h : Nat} :
      Reachable l → execTx tx h l = .ok l' → Reachable l'

/-- Extract the ledger of a successful execution (empty ledger on error;
used only to name concrete successful states below). -/
def okOr : Except ExecError Ledger → Ledger
  | .ok l => l
  | .error _ => []

/-- Placeholder wallet for total lookups on concrete states. -/
def wDefault : Wallet :=
  { pub_key := 0, name := "", balance := 0, pending_balance := 0
    pending_txs := [], history_len := 0, history_hash := 0 }

/-- Concrete run: wallet 1 ("alice") created. -/
def demo1 : Ledger := okOr (execTx (.createWallet 1 "alice") 101 [])

/-- Concrete run: wallet 2 ("bob") created as well. -/
def demo2 : Ledger := okOr (execTx (.createWallet 2 "bob") 102 demo1)

/-- Concrete run: 100 coins issued to wallet 1. -/
def demo3 : Ledger := okOr (execTx (.issue 1 100 0) 103 demo2)

/-- Concrete run: first multisig proposal of 60 from wallet 1 to wallet 2,
authored by approver 3 (proposal hash 104). -/
def demo4 : Ledger := okOr (execTx (.transferMultisign 3 1 2 [3] 60 1) 104 demo3)

/-- Concrete run: second multisig proposal of 60 (hash 105); wallet 1 now
has `pending_balance = 120 > balance = 100`. -/
def lbad : Ledger := okOr (execTx (.transferMultisign 3 1 2 [3] 60 2) 105 demo4)

/-- Concrete run: accepting proposal 104 on `lbad`; the settled amount
underflows and wraps. -/
def lbad2 : Ledger := okOr (execTx (.acceptMultisign 3 104 1 2 [3] 9) 200 lbad)

/-- Wallet 1 in `demo3` (balance 100, no pending state). -/
def aliceD3 : Wallet := (getWallet demo3 1).getD wDefault

/-- Wallet 2 in `demo3` (balance 0). -/
def bobD3 : Wallet := (getWallet demo3 2).getD wDefault

/-- Wallet 1 in `demo4` (balance 100, pending_balance 60, one pending
proposal). -/
def aliceD4 : Wallet := (getWallet demo4 1).getD wDefault

/-- Wallet 1 in `lbad` (balance 100, pending_balance 120). -/
def aliceBad : Wallet := (getWallet lbad 1).getD wDefault

/-! ### Basic lemmas about the ledger table -/

instance : DecidableEq (Except ExecError Ledger) := fun a b =>
  match a, b with
  | .ok x, .ok y =>
    if h : x = y then .isTrue (by rw [h]) else .isFalse (by simp [h])
  | .error x, .error y =>
    if h : x = y then .isTrue (by rw [h]) else .isFalse (by simp [h])
  | .ok _, .error _ => .isFalse (by simp)
  | .error _, .ok _ => .isFalse (by simp)

@[simp]
theorem Wallet.set_balance_pub_key (w : Wallet) (b h : Nat) :
    (w.set_balance b h).pub_key = w.pub_key := rfl

@[simp]
theorem Wallet.set_balance_pending_balance (w : Wallet) (b h : Nat) :
    (w.set_balance b h).pending_balance = w.pending_balance := rfl

@[simp]
theorem Wallet.set_balance_balance (w : Wallet) (b h : Nat) :
    (w.set_balance b h).balance = b := rfl

@[simp]
theorem Wallet.set_pending_balance_pub_key (w : Wallet) (b : Nat) :
    (w.set_pending_balance b).pub_key = w.pub_key := rfl

@[simp]
theorem Wallet.set_pending_balance_balance (w : Wallet) (b : Nat) :
    (w.set_pending_balance b).balance = w.balance := rfl

@[simp]
theorem Wallet.add_pending_tx_pub_key (w : Wallet) (t : Nat) :
    (w.add_pending_tx t).pub_key = w.pub_key := rfl

@[simp]
theorem Wallet.add_pending_tx_balance (w : Wallet) (t : Nat) :
    (w.add_pending_tx t).balance = w.balance := rfl

@[simp]
theorem Wallet.add_pending_tx_pending_balance (w : Wallet) (t : Nat) :
    (w.add_pending_tx t).pending_balance = w.pending_balance := rfl

@[simp]
theorem Wallet.delete_pending_tx_pub_key (w : Wallet) (t : Nat) :
    (w.delete_pending_tx t).pub_key = w.pub_key := rfl

@[simp]
theorem Wallet.delete_pending_tx_balance (w : Wallet) (t : Nat) :
    (w.delete_pending_tx t).balance = w.balance := rfl

@[simp]
theorem Wallet.delete_pending_tx_pending_balance (w : Wallet) (t : Nat) :
    (w.delete_pending_tx t).pending_balance = w.pending_balance := rfl

@[simp]
theorem Wallet.delete_pending_tx_history_hash (w : Wallet) (t : Nat) :
    (w.delete_pending_tx t).history_hash = w.history_hash := rfl

theorem U64_pos : 0 < U64 := by
  decide

theorem add64_lt (a b : Nat) : add64 a b < U64 :=
  Nat.mod_lt _ U64_pos

theorem sub64_lt (a b : Nat) : sub64 a b < U64 :=
  Nat.mod_lt _ U64_pos

theorem add64_eq {a b : Nat} (h : a + b < U64) : add64 a b = a + b :=
  Nat.mod_eq_of_lt h

theorem sub64_eq {a b : Nat} (hb : b ≤ a) (ha : a < U64) : sub64 a b = a - b := by
  unfold sub64
  have hbU : b < U64 := lt_of_le_of_lt hb ha
  rw [Nat.mod_eq_of_lt ha, Nat.mod_eq_of_lt hbU]
  have h1 : a % U64 = a := Nat.mod_eq_of_lt ha
  have h2 : a + (U64 - b) = (a - b) + U64 := by
    omega
  rw [h2, Nat.add_mod_right, Nat.mod_eq_of_lt (by omega)]

theorem getWallet_eq_key {l : Ledger} {k : Nat} {w : Wallet}
    (h : getWallet l k = some w) : w.pub_key = k := by
  induction l with
  | nil => simp [getWallet] at h
  | cons v t ih =>
    simp only [getWallet] at h
    by_cases hv : v.pub_key = k
    · rw [if_pos hv] at h
      injection h with h
      rw [← h]
      exact hv
    · rw [if_neg hv] at h
      exact ih h

theorem getWallet_mem {l : Ledger} {k : Nat} {w : Wallet}
    (h : getWallet l k = some w) : w ∈ l := by
  induction l with
  | nil => simp [getWallet] at h
  | cons v t ih =>
    simp only [getWallet] at h
    by_cases hv : v.pub_key = k
    · rw [if_pos hv] at h
      injection h with h
      rw [← h]
      exact List.mem_cons_self v t
    · rw [if_neg hv] at h
      exact List.mem_cons_of_mem v (ih h)

theorem getWallet_none_not_mem {l : Ledger} {k : Nat}
    (h : getWallet l k = none) : k ∉ l.map Wallet.pub_key := by
  induction l with
  | nil => simp
  | cons v t ih =>
    simp only [getWallet] at h
    by_cases hv : v.pub_key = k
    · rw [if_pos hv] at h
      exact absurd h (by simp)
    · rw [if_neg hv] at h
      simp only [List.map_cons, List.mem_cons]
      intro hc
      rcases hc with hc | hc
      · exact hv hc.symm
      · exact ih h hc

theorem getWallet_putWallet_same {l : Ledger} {k : Nat} {w₀ w : Wallet}
    (h : getWallet l k = some w₀) (hk : w.pub_key = k) :
    getWallet (putWallet l w) k = some w := by
  induction l with
  | nil => simp [getWallet] at h
  | cons v t ih =>
    simp only [getWallet] at h
    simp only [putWallet]
    by_cases hv : v.pub_key = k
    · have : v.pub_key = w.pub_key := by rw [hv, hk]
      rw [if_pos this]
      simp [getWallet, hk]
    · have : v.pub_key ≠ w.pub_key := by rw [hk]; exact hv
      rw [if_neg this]
      rw [if_neg hv] at h
      simp only [getWallet, if_neg hv]
      exact ih h

theorem getWallet_putWallet_ne {l : Ledger} {k : Nat} {w : Wallet}
    (hk : w.pub_key ≠ k) : getWallet (putWallet l w) k = getWallet l k := by
  induction l with
  | nil => rfl
  | cons v t ih =>
    simp only [putWallet, getWallet]
    by_cases hv : v.pub_key = w.pub_key
    · rw [if_pos hv]
      have h1 : v.pub_key ≠ k := by rw [hv]; exact hk
      simp only [getWallet, if_neg hk, if_neg h1]
      exact ih
    · rw [if_neg hv]
      by_cases h2 : v.pub_key = k
      · rw [if_pos h2, if_pos h2]
      · rw [if_neg h2, if_neg h2]
        exact ih

theorem keys_putWallet (l : Ledger) (w : Wallet) :
    (putWallet l w).map Wallet.pub_key = l.map Wallet.pub_key := by
  induction l with
  | nil => simp [putWallet]
  | cons v t ih =>
    simp only [putWallet, List.map_cons]
    by_cases hv : v.pub_key = w.pub_key
    · rw [if_pos hv, ih, hv]
    · rw [if_neg hv, ih]

theorem uniqKeys_putWallet {l : Ledger} (w : Wallet) (h : uniqKeys l) :
    uniqKeys (putWallet l w) := by
  unfold uniqKeys at h ⊢
  rw [keys_putWallet]
  exact h

theorem putWallet_of_not_mem {l : Ledger} {w : Wallet}
    (h : w.pub_key ∉ l.map Wallet.pub_key) : putWallet l w = l := by
  induction l with
  | nil => simp [putWallet]
  | cons v t ih =>
    simp only [List.map_cons, List.mem_cons] at h
    push_neg at h
    simp only [putWallet]
    rw [if_neg (fun hc => h.1 hc.symm), ih h.2]

theorem mem_putWallet {l : Ledger} {w v : Wallet}
    (h : v ∈ putWallet l w) : v = w ∨ v ∈ l := by
  induction l with
  | nil => simp [putWallet] at h
  | cons u t ih =>
    simp only [putWallet, List.mem_cons] at h
    rcases h with h | h
    · by_cases hu : u.pub_key = w.pub_key
      · rw [if_pos hu] at h
        exact Or.inl h
      · rw [if_neg hu] at h
        exact Or.inr (by rw [h]; exact List.mem_cons_self u t)
    · rcases ih h with h | h
      · exact Or.inl h
      · exact Or.inr (List.mem_cons_of_mem u h)

theorem totalBalance_append (l l' : Ledger) :
    totalBalance (l ++ l') = totalBalance l + totalBalance l' := by
  induction l with
  | nil => simp [totalBalance]
  | cons v t ih =>
    have h : totalBalance (v :: t ++ l') = v.balance + totalBalance (t ++ l') := rfl
    rw [h, ih]
    simp only [totalBalance]
    omega

theorem balance_le_totalBalance {l : Ledger} {w : Wallet} (h : w ∈ l) :
    w.balance ≤ totalBalance l := by
  induction l with
  | nil => simp at h
  | cons v t ih =>
    simp only [List.mem_cons] at h
    simp only [totalBalance]
    rcases h with h | h
    · rw [h]; omega
    · have := ih h; omega

theorem totalBalance_putWallet {l : Ledger} {k : Nat} {w₀ w : Wallet}
    (hu : uniqKeys l) (h : getWallet l k = some w₀) (hk : w.pub_key = k) :
    totalBalance (putWallet l w) + w₀.balance = totalBalance l + w.balance := by
  induction l with
  | nil => simp [getWallet] at h
  | cons v t ih =>
    have hu' : uniqKeys t := by
      unfold uniqKeys at hu ⊢
      simp only [List.map_cons, List.nodup_cons] at hu
      exact hu.2
    have hvt : v.pub_key ∉ t.map Wallet.pub_key := by
      unfold uniqKeys at hu
      simp only [List.map_cons, List.nodup_cons] at hu
      exact hu.1
    simp only [getWallet] at h
    simp only [putWallet]
    by_cases hv : v.pub_key = k
    · rw [if_pos hv] at h
      injection h with h
      have hvw : v.pub_key = w.pub_key := by rw [hv, hk]
      rw [if_pos hvw]
      have hput : putWallet t w = t := by
        apply putWallet_of_not_mem
        rw [← hvw]
        exact hvt
      rw [hput]
      simp only [totalBalance]
      rw [← h]
      omega
    · rw [if_neg hv] at h
      have hvw : v.pub_key ≠ w.pub_key := by rw [hk]; exact hv
      rw [if_neg hvw]
      simp only [totalBalance]
      have := ih hu' h
      omega

theorem two_balances_le_totalBalance {l : Ledger} {k₁ k₂ : Nat} {w₁ w₂ : Wallet}
    (hu : uniqKeys l) (h₁ : getWallet l k₁ = some w₁)
    (h₂ : getWallet l k₂ = some w₂) (hne : k₁ ≠ k₂) :
    w₁.balance + w₂.balance ≤ totalBalance l := by
  induction l with
  | nil => simp [getWallet] at h₁
  | cons v t ih =>
    have hu' : uniqKeys t := by
      unfold uniqKeys at hu ⊢
      simp only [List.map_cons, List.nodup_cons] at hu
      exact hu.2
    simp only [getWallet] at h₁ h₂
    simp only [totalBalance]
    by_cases hv₁ : v.pub_key = k₁
    · rw [if_pos hv₁] at h₁
      injection h₁ with h₁
      have hv₂ : v.pub_key ≠ k₂ := by rw [hv₁]; exact hne
      rw [if_neg hv₂] at h₂
      have := balance_le_totalBalance (getWallet_mem h₂)
      rw [← h₁]
      omega
    · rw [if_neg hv₁] at h₁
      by_cases hv₂ : v.pub_key = k₂
      · rw [if_pos hv₂] at h₂
        injection h₂ with h₂
        have := balance_le_totalBalance (getWallet_mem h₁)
        rw [← h₂]
        omega
      · rw [if_neg hv₂] at h₂
        have := ih hu' h₁ h₂
        omega

/-! ### Preservation of well-formedness and key uniqueness -/

theorem wfLedger_putWallet {l : Ledger} {w : Wallet} (hwf : wfLedger l)
    (hb : w.balance < U64) (hp : w.pending_balance < U64) :
    wfLedger (putWallet l w) := by
  intro v hv
  rcases mem_putWallet hv with h | h
  · rw [h]; exact ⟨hb, hp⟩
  · exact hwf v h

theorem wfLedger_execTx {l l' : Ledger} {tx : Tx} {h : Nat}
    (hwf : wfLedger l) (hex : execTx tx h l = .ok l') : wfLedger l' := by
  cases tx with
  | transfer author to_pk amount seed =>
    simp only [execTx] at hex
    split at hex
    · exact absurd hex (by simp)
    · split at hex
      · exact absurd hex (by simp)
      · rename_i sender hsender
        split at hex
        · exact absurd hex (by simp)
        · rename_i receiver hreceiver
          split at hex
          · exact absurd hex (by simp)
          · simp only [Except.ok.injEq] at hex
            subst hex
            unfold increase_wallet_balance decrease_wallet_balance
            apply wfLedger_putWallet
            · apply wfLedger_putWallet hwf
              · exact sub64_lt _ _
              · simp only [Wallet.set_balance]
                exact (hwf sender (getWallet_mem hsender)).2
            · exact add64_lt _ _
            · simp only [Wallet.set_balance]
              exact (hwf receiver (getWallet_mem hreceiver)).2
  | transferMultisign author from_pk to_pk approvers amount seed =>
    simp only [execTx] at hex
    split at hex
    · exact absurd hex (by simp)
    · split at hex
      · exact absurd hex (by simp)
      · split at hex
        · exact absurd hex (by simp)
        · rename_i sender hsender
          split at hex
          · exact absurd hex (by simp)
          · rename_i receiver hreceiver
            split at hex
            · exact absurd hex (by simp)
            · simp only [Except.ok.injEq] at hex
              subst hex
              unfold decrease_wallet_pending_balance add_tx_to_wallet
              apply wfLedger_putWallet
              · apply wfLedger_putWallet hwf
                · simp only [Wallet.add_pending_tx]
                  exact (hwf sender (getWallet_mem hsender)).1
                · simp only [Wallet.add_pending_tx]
                  exact (hwf sender (getWallet_mem hsender)).2
              · simp only [Wallet.set_pending_balance, Wallet.add_pending_tx]
                exact (hwf sender (getWallet_mem hsender)).1
              · exact add64_lt _ _
  | acceptMultisign author tx_hash from_pk to_pk approvers seed =>
    simp only [execTx] at hex
    split at hex
    · exact absurd hex (by simp)
    · split at hex
      · exact absurd hex (by simp)
      · rename_i sender hsender
        split at hex
        · exact absurd hex (by simp)
        · rename_i receiver hreceiver
          split at hex
          · split at hex
            · simp only [Except.ok.injEq] at hex
              subst hex
              unfold increase_wallet_balance decrease_wallet_balance remove_tx_from_wallet
              apply wfLedger_putWallet
              · apply wfLedger_putWallet
                · apply wfLedger_putWallet hwf
                  · simp only [Wallet.delete_pending_tx]
                    exact (hwf sender (getWallet_mem hsender)).1
                  · simp only [Wallet.delete_pending_tx]
                    exact (hwf sender (getWallet_mem hsender)).2
                · exact sub64_lt _ _
                · simp only [Wallet.set_balance, Wallet.delete_pending_tx]
                  exact (hwf sender (getWallet_mem hsender)).2
              · exact add64_lt _ _
              · simp only [Wallet.set_balance]
                exact (hwf receiver (getWallet_mem hreceiver)).2
            · exact absurd hex (by simp)
          · simp only [Except.ok.injEq] at hex
            subst hex
            exact hwf
  | issue author amount seed =>
    simp only [execTx] at hex
    split at hex
    · rename_i wallet hwallet
      simp only [Except.ok.injEq] at hex
      subst hex
      unfold increase_wallet_balance
      apply wfLedger_putWallet hwf
      · exact add64_lt _ _
      · simp only [Wallet.set_balance]
        exact (hwf wallet (getWallet_mem hwallet)).2
    · exact absurd hex (by simp)
  | createWallet author name =>
    simp only [execTx] at hex
    split at hex
    · simp only [Except.ok.injEq] at hex
      subst hex
      unfold create_wallet
      intro v hv
      rw [List.mem_append] at hv
      rcases hv with hv | hv
      · exact hwf v hv
      · simp only [List.mem_singleton] at hv
        rw [hv]
        exact ⟨U64_pos, U64_pos⟩
    · exact absurd hex (by simp)

theorem uniqKeys_execTx {l l' : Ledger} {tx : Tx} {h : Nat}
    (hu : uniqKeys l) (hex : execTx tx h l = .ok l') : uniqKeys l' := by
  cases tx with
  | transfer author to_pk amount seed =>
    simp only [execTx] at hex
    split at hex
    · exact absurd hex (by simp)
    · split at hex
      · exact absurd hex (by simp)
      · split at hex
        · exact absurd hex (by simp)
        · split at hex
          · exact absurd hex (by simp)
          · simp only [Except.ok.injEq] at hex
            subst hex
            exact uniqKeys_putWallet _ (uniqKeys_putWallet _ hu)
  | transferMultisign author from_pk to_pk approvers amount seed =>
    simp only [execTx] at hex
    split at hex
    · exact absurd hex (by simp)
    · split at hex
      · exact absurd hex (by simp)
      · split at hex
        · exact absurd hex (by simp)
        · split at hex
          · exact absurd hex (by simp)
          · split at hex
            · exact absurd hex (by simp)
            · simp only [Except.ok.injEq] at hex
              subst hex
              exact uniqKeys_putWallet _ (uniqKeys_putWallet _ hu)
  | acceptMultisign author tx_hash from_pk to_pk approvers seed =>
    simp only [execTx] at hex
    split at hex
    · exact absurd hex (by simp)
    · split at hex
      · exact absurd hex (by simp)
      · split at hex
        · exact absurd hex (by simp)
        · split at hex
          · split at hex
            · simp only [Except.ok.injEq] at hex
              subst hex
              exact uniqKeys_putWallet _ (uniqKeys_putWallet _ (uniqKeys_putWallet _ hu))
            · exact absurd hex (by simp)
          · simp only [Except.ok.injEq] at hex
            subst hex
            exact hu
  | issue author amount seed =>
    simp only [execTx] at hex
    split at hex
    · simp only [Except.ok.injEq] at hex
      subst hex
      exact uniqKeys_putWallet _ hu
    · exact absurd hex (by simp)
  | createWallet author name =>
    simp only [execTx] at hex
    split at hex
    · rename_i hnone
      simp only [Except.ok.injEq] at hex
      subst hex
      unfold uniqKeys create_wallet
      rw [List.map_append]
      simp only [List.map_cons, List.map_nil]
      rw [List.nodup_append]
      refine ⟨hu, List.nodup_singleton _, ?_⟩
      intro x hx hx'
      simp only [List.mem_singleton] at hx'
      subst hx'
      exact getWallet_none_not_mem hnone hx
    · exact absurd hex (by simp)

theorem reachable_wfLedger {l : Ledger} (h : Reachable l) : wfLedger l := by
  induction h with
  | init => intro w hw; simp at hw
  | step _ hex ih => exact wfLedger_execTx ih hex

theorem reachable_uniqKeys {l : Ledger} (h : Reachable l) : uniqKeys l := by
  induction h with
  | init => simp [uniqKeys]
  | step _ hex ih => exact uniqKeys_execTx ih hex

/-! ### The concrete run is reachable -/

theorem demo3_reachable : Reachable demo3 := by
  have s1 : execTx (.createWallet 1 "alice") 101 [] = .ok demo1 := rfl
  have s2 : execTx (.createWallet 2 "bob") 102 demo1 = .ok demo2 := rfl
  have s3 : execTx (.issue 1 100 0) 103 demo2 = .ok demo3 := rfl
  exact .step (.step (.step .init s1) s2) s3

theorem lbad_reachable : Reachable lbad := by
  have s4 : execTx (.transferMultisign 3 1 2 [3] 60 1) 104 demo3 = .ok demo4 := rfl
  have s5 : execTx (.transferMultisign 3 1 2 [3] 60 2) 105 demo4 = .ok lbad := rfl
  exact .step (.step demo3_reachable s4) s5

/-! ### Claim theorems -/

/-- C10: for every wallet whose `pending_balance ≤ balance` (and whose
balance is a valid `u64` value), the settled-amount computation
`sender.balance - sender.pending_balance` in `AcceptMultisign::execute`
does not underflow: the wrapping `u64` subtraction agrees with the exact
difference. -/
theorem settled_amount_no_underflow (w : Wallet) (hwf : w.balance < U64)
    (hle : w.pending_balance ≤ w.balance) :
    sub64 w.balance w.pending_balance = w.balance - w.pending_balance ∧
    sub64 w.balance w.pending_balance + w.pending_balance = w.balance := by
  have h := sub64_eq hle hwf
  refine ⟨h, ?_⟩
  rw [h]
  omega

/-- Witness for C10 at the concrete wallet 1 of `demo4`
(balance 100, pending_balance 60). -/
theorem settled_amount_no_underflow_witness :
    sub64 aliceD4.balance aliceD4.pending_balance =
      aliceD4.balance - aliceD4.pending_balance ∧
    sub64 aliceD4.balance aliceD4.pending_balance + aliceD4.pending_balance =
      aliceD4.balance :=
  settled_amount_no_underflow aliceD4 (by decide) (by decide)

/-- C8 counterexample: the reported codes are not pairwise distinct — the
raw same-sender-and-receiver rejection (`ERROR_SENDER_SAME_AS_RECEIVER = 0`)
collides with `Error::WalletAlreadyExists = 0`, although the two error
kinds are distinct. -/
theorem error_code_collision_cex :
    errorCode .senderSameAsReceiver = errorCode .walletAlreadyExists ∧
    ExecError.senderSameAsReceiver ≠ ExecError.walletAlreadyExists := by
  decide

/-- C8 amended: the four `Error` enum kinds carry the distinct codes
0, 1, 2, 3; the same-sender-and-receiver rejection carries code 0, which is
distinct from the codes of `SenderNotFound`, `ReceiverNotFound` and
`InsufficientCurrencyAmount` but collides with `WalletAlreadyExists`. -/
theorem error_code_distinctness :
    errorCode .walletAlreadyExists = 0 ∧
    errorCode .senderNotFound = 1 ∧
    errorCode .receiverNotFound = 2 ∧
    errorCode .insufficientCurrencyAmount = 3 ∧
    errorCode .senderSameAsReceiver ≠ errorCode .senderNotFound ∧
    errorCode .senderSameAsReceiver ≠ errorCode .receiverNotFound ∧
    errorCode .senderSameAsReceiver ≠ errorCode .insufficientCurrencyAmount ∧
    errorCode .senderSameAsReceiver = errorCode .walletAlreadyExists := by
  decide

/-- C9 counterexample: the pending-state mutations do not touch the
history: updating the pending balance of the concrete wallet 1 of `demo4`
leaves `history_len` unchanged instead of incrementing it, and likewise for
adding or removing a pending transfer. -/
theorem history_len_pending_cex :
    (aliceD4.set_pending_balance 70).history_len = aliceD4.history_len ∧
    ¬ (aliceD4.set_pending_balance 70).history_len = aliceD4.history_len + 1 ∧
    (aliceD4.add_pending_tx 11).history_len = aliceD4.history_len ∧
    (aliceD4.delete_pending_tx 104).history_len = aliceD4.history_len := by
  decide

/-- C9 amended: only the balance mutation (`Wallet::set_balance`, used by
credit and debit) increments `history_len` by exactly one and installs the
new history digest; the reserve/release mutations
(`Wallet::set_pending_balance`, `Wallet::add_pending_tx`,
`Wallet::delete_pending_tx`) leave both `history_len` and `history_hash`
unchanged. -/
theorem history_update_spec (w : Wallet) (b hh t : Nat) :
    ((w.set_balance b hh).history_len = w.history_len + 1 ∧
      (w.set_balance b hh).history_hash = hh) ∧
    ((w.set_pending_balance b).history_len = w.history_len ∧
      (w.set_pending_balance b).history_hash = w.history_hash) ∧
    ((w.add_pending_tx t).history_len = w.history_len ∧
      (w.add_pending_tx t).history_hash = w.history_hash) ∧
    ((w.delete_pending_tx t).history_len = w.history_len ∧
      (w.delete_pending_tx t).history_hash = w.history_hash) :=
  ⟨⟨rfl, rfl⟩, ⟨rfl, rfl⟩, ⟨rfl, rfl⟩, ⟨rfl, rfl⟩⟩

/-- C7 counterexample: `Issue` by an author with no wallet fails with
`ReceiverNotFound` (as the source's own doc comment on the error says),
not with `SenderNotFound`. -/
theorem issue_missing_author_cex :
    execTx (.issue 5 10 0) 7 ([] : Ledger) = .error .receiverNotFound ∧
    execTx (.issue 5 10 0) 7 ([] : Ledger) ≠ .error .senderNotFound := by
  decide

/-- C7 amended: when the author's wallet is missing, `Issue` fails with
`ReceiverNotFound`; when it exists, execution credits the author's wallet
by `amount` (wrapping `u64` addition), bumps its history, and leaves every
other wallet unchanged. -/
theorem issue_execution_spec (l : Ledger) (author amount seed ch : Nat) :
    (getWallet l author = none →
      execTx (.issue author amount seed) ch l = .error .receiverNotFound) ∧
    (∀ w, getWallet l author = some w →
      ∃ l', execTx (.issue author amount seed) ch l = .ok l' ∧
        getWallet l' author = some { w with
          balance := add64 w.balance amount
          history_len := w.history_len + 1
          history_hash := hashCombine w.history_hash ch } ∧
        ∀ k, k ≠ author → getWallet l' k = getWallet l k) := by
  constructor
  · intro h
    simp only [execTx, h]
  · intro w hw
    refine ⟨increase_wallet_balance l w amount ch, ?_, ?_, ?_⟩
    · simp only [execTx, hw]
    · have hk0 : w.pub_key = author := getWallet_eq_key hw
      exact getWallet_putWallet_same hw hk0
    · intro k hk
      apply getWallet_putWallet_ne
      intro hc
      exact hk (((getWallet_eq_key hw).symm.trans hc).symm)

/-- Witness for C7 at `demo3`: issuing 50 more coins to wallet 1. -/
theorem issue_execution_spec_witness :
    ∃ l', execTx (.issue 1 50 0) 200 demo3 = .ok l' ∧
      getWallet l' 1 = some { aliceD3 with
        balance := add64 aliceD3.balance 50
        history_len := aliceD3.history_len + 1
        history_hash := hashCombine aliceD3.history_hash 200 } ∧
      ∀ k, k ≠ 1 → getWallet l' k = getWallet demo3 k :=
  (issue_execution_spec demo3 1 50 0 200).2 aliceD3 (by decide)

/-- C2 counterexample: on `demo3` (wallets 1 and 2 both exist, wallet 1 has
an empty pending set) an `AcceptMultisign` referencing the unknown proposal
hash 99 returns success with the ledger unchanged — the miss is silently
swallowed instead of failing with `SenderNotFound`. -/
theorem accept_unknown_hash_cex :
    execTx (.acceptMultisign 3 99 1 2 [3] 0) 50 demo3 = .ok demo3 ∧
    execTx (.acceptMultisign 3 99 1 2 [3] 0) 50 demo3 ≠
      .error .senderNotFound := by
  decide

/-- C2 amended: for an `AcceptMultisign` against existing sender and
receiver wallets whose referenced proposal hash is not in the sender's
pending set, execution returns success with the ledger unchanged (no
mutation); the case is silently swallowed as a success outcome rather than
reported as `SenderNotFound`. -/
theorem accept_unknown_hash_spec (l : Ledger) (author txh from_pk to_pk : Nat)
    (approvers : List Nat) (seed ch : Nat) (s r : Wallet)
    (hne : from_pk ≠ to_pk)
    (hs : getWallet l from_pk = some s) (hr : getWallet l to_pk = some r)
    (hmiss : s.pending_txs.contains txh = false) :
    execTx (.acceptMultisign author txh from_pk to_pk approvers seed) ch l =
      .ok l := by
  simp only [execTx, hs, hr, if_neg hne, hmiss]
  simp

/-- Witness for C2 at `demo3` with the unknown proposal hash 99. -/
theorem accept_unknown_hash_spec_witness :
    execTx (.acceptMultisign 3 99 1 2 [3] 0) 51 demo3 = .ok demo3 :=
  accept_unknown_hash_spec demo3 3 99 1 2 [3] 0 51 aliceD3 bobD3
    (by decide) (by decide) (by decide) (by decide)

/-- C6: `Transfer(to, amount, seed)` checks, in order: same sender and
receiver, sender existence, receiver existence, sufficient funds — failing
with the corresponding error — and otherwise debits the author by `amount`
and credits the receiver by `amount` (wrapping `u64` arithmetic), updating
both histories and touching no other wallet. -/
theorem transfer_execution_spec (l : Ledger) (author to_pk amount seed ch : Nat) :
    (author = to_pk →
      execTx (.transfer author to_pk amount seed) ch l =
        .error .senderSameAsReceiver) ∧
    (author ≠ to_pk → getWallet l author = none →
      execTx (.transfer author to_pk amount seed) ch l =
        .error .senderNotFound) ∧
    (∀ s, author ≠ to_pk → getWallet l author = some s →
      getWallet l to_pk = none →
      execTx (.transfer author to_pk amount seed) ch l =
        .error .receiverNotFound) ∧
    (∀ s r, author ≠ to_pk → getWallet l author = some s →
      getWallet l to_pk = some r → s.balance < amount →
      execTx (.transfer author to_pk amount seed) ch l =
        .error .insufficientCurrencyAmount) ∧
    (∀ s r, author ≠ to_pk → getWallet l author = some s →
      getWallet l to_pk = some r → amount ≤ s.balance →
      ∃ l', execTx (.transfer author to_pk amount seed) ch l = .ok l' ∧
        getWallet l' author = some { s with
          balance := sub64 s.balance amount
          history_len := s.history_len + 1
          history_hash := hashCombine s.history_hash ch } ∧
        getWallet l' to_pk = some { r with
          balance := add64 r.balance amount
          history_len := r.history_len + 1
          history_hash := hashCombine r.history_hash ch } ∧
        ∀ k, k ≠ author → k ≠ to_pk → getWallet l' k = getWallet l k) := by
  refine ⟨?_, ?_, ?_, ?_, ?_⟩
  · intro h
    simp only [execTx, if_pos h]
  · intro hne h
    simp only [execTx, if_neg hne, h]
  · intro s hne hs hr
    simp only [execTx, if_neg hne, hs, hr]
  · intro s r hne hs hr hlt
    simp only [execTx, if_neg hne, hs, hr, if_pos hlt]
  · intro s r hne hs hr hge
    have hks : s.pub_key = author := getWallet_eq_key hs
    have hkr : r.pub_key = to_pk := getWallet_eq_key hr
    refine ⟨increase_wallet_balance (decrease_wallet_balance l s amount ch)
      r amount ch, ?_, ?_, ?_, ?_⟩
    · simp only [execTx, if_neg hne, hs, hr, if_neg (not_lt.mpr hge)]
    · simp only [increase_wallet_balance, decrease_wallet_balance]
      rw [getWallet_putWallet_ne (by
        simp only [Wallet.set_balance_pub_key, hkr]
        exact fun hc => hne hc.symm)]
      have h2 := getWallet_putWallet_same hs
        (show (s.set_balance (sub64 s.balance amount)
          (hashCombine s.history_hash ch)).pub_key = author by
          simp only [Wallet.set_balance_pub_key]; exact hks)
      rw [h2]
      rfl
    · simp only [increase_wallet_balance, decrease_wallet_balance]
      have h1 : getWallet (putWallet l (s.set_balance (sub64 s.balance amount)
          (hashCombine s.history_hash ch))) to_pk = some r := by
        rw [getWallet_putWallet_ne (by
          simp only [Wallet.set_balance_pub_key, hks]
          exact hne)]
        exact hr
      have h2 := getWallet_putWallet_same h1
        (show (r.set_balance (add64 r.balance amount)
          (hashCombine r.history_hash ch)).pub_key = to_pk by
          simp only [Wallet.set_balance_pub_key]; exact hkr)
      rw [h2]
      rfl
    · intro k hka hkt
      simp only [increase_wallet_balance, decrease_wallet_balance]
      rw [getWallet_putWallet_ne (by
        simp only [Wallet.set_balance_pub_key, hkr]
        exact fun hc => hkt hc.symm)]
      rw [getWallet_putWallet_ne (by
        simp only [Wallet.set_balance_pub_key, hks]
        exact fun hc => hka hc.symm)]

/-- Witness for C6 at `demo3`: transferring 30 from wallet 1 to wallet 2. -/
theorem transfer_execution_spec_witness :
    ∃ l', execTx (.transfer 1 2 30 0) 77 demo3 = .ok l' ∧
      getWallet l' 1 = some { aliceD3 with
        balance := sub64 aliceD3.balance 30
        history_len := aliceD3.history_len + 1
        history_hash := hashCombine aliceD3.history_hash 77 } ∧
      getWallet l' 2 = some { bobD3 with
        balance := add64 bobD3.balance 30
        history_len := bobD3.history_len + 1
        history_hash := hashCombine bobD3.history_hash 77 } ∧
      ∀ k, k ≠ 1 → k ≠ 2 → getWallet l' k = getWallet demo3 k :=
  (transfer_execution_spec demo3 1 2 30 0 77).2.2.2.2 aliceD3 bobD3
    (by decide) (by decide) (by decide) (by decide)

/-- C3: a `TransferMultisign` proposal whose preconditions all hold
(`from ≠ to`, sender and receiver exist, author among the approvers,
`sender.balance ≥ amount`) appends this proposal's hash to the sender's
pending set and increases `pending_balance` by `amount` (wrapping `u64`
addition), leaving `balance` (and the history fields) unchanged and
touching no other wallet. -/
theorem propose_execution_spec (l : Ledger) (author from_pk to_pk : Nat)
    (approvers : List Nat) (amount seed ch : Nat) (s r : Wallet)
    (hne : from_pk ≠ to_pk) (happ : approvers.contains author = true)
    (hs : getWallet l from_pk = some s) (hr : getWallet l to_pk = some r)
    (hbal : amount ≤ s.balance) :
    ∃ l', execTx (.transferMultisign author from_pk to_pk approvers amount seed)
        ch l = .ok l' ∧
      getWallet l' from_pk = some { s with
        pending_balance := add64 s.pending_balance amount
        pending_txs := s.pending_txs ++ [ch] } ∧
      ∀ k, k ≠ from_pk → getWallet l' k = getWallet l k := by
  have hks : s.pub_key = from_pk := getWallet_eq_key hs
  refine ⟨decrease_wallet_pending_balance (putWallet l (s.add_pending_tx ch))
    (s.add_pending_tx ch) amount, ?_, ?_, ?_⟩
  · simp only [execTx, if_neg hne, happ, hs, hr, if_neg (not_lt.mpr hbal)]
    simp [add_tx_to_wallet]
  · have h1 := getWallet_putWallet_same hs
      (show (s.add_pending_tx ch).pub_key = from_pk by
        simp only [Wallet.add_pending_tx_pub_key]; exact hks)
    simp only [decrease_wallet_pending_balance]
    have h2 := getWallet_putWallet_same h1
      (show ((s.add_pending_tx ch).set_pending_balance
        (add64 (s.add_pending_tx ch).pending_balance amount)).pub_key = from_pk by
        simp only [Wallet.set_pending_balance_pub_key,
          Wallet.add_pending_tx_pub_key]
        exact hks)
    rw [h2]
    rfl
  · intro k hk
    simp only [decrease_wallet_pending_balance]
    rw [getWallet_putWallet_ne (by
      simp only [Wallet.set_pending_balance_pub_key,
        Wallet.add_pending_tx_pub_key, hks]
      exact fun hc => hk hc.symm)]
    rw [getWallet_putWallet_ne (by
      simp only [Wallet.add_pending_tx_pub_key, hks]
      exact fun hc => hk hc.symm)]

/-- Witness for C3 at `demo3`: proposing 40 from wallet 1 to wallet 2 with
approver 3 as author (proposal hash 300). -/
theorem propose_execution_spec_witness :
    ∃ l', execTx (.transferMultisign 3 1 2 [3] 40 7) 300 demo3 = .ok l' ∧
      getWallet l' 1 = some { aliceD3 with
        pending_balance := add64 aliceD3.pending_balance 40
        pending_txs := aliceD3.pending_txs ++ [300] } ∧
      ∀ k, k ≠ 1 → getWallet l' k = getWallet demo3 k :=
  propose_execution_spec demo3 3 1 2 [3] 40 7 300 aliceD3 bobD3
    (by decide) (by decide) (by decide) (by decide) (by decide)

/-- C1: an `AcceptMultisign` whose preconditions all hold (`from ≠ to`,
sender and receiver exist, the proposal hash is in the sender's pending
set, the author is among the approvers) removes the hash from the sender's
pending set, computes `settled = sender.balance - sender.pending_balance`
(wrapping `u64` subtraction), debits the sender by `settled`, credits the
receiver by `settled`, leaves `sender.pending_balance` unchanged, and
touches no other wallet. -/
theorem accept_execution_spec (l : Ledger) (author txh from_pk to_pk : Nat)
    (approvers : List Nat) (seed ch : Nat) (s r : Wallet)
    (hne : from_pk ≠ to_pk)
    (hs : getWallet l from_pk = some s) (hr : getWallet l to_pk = some r)
    (hpend : s.pending_txs.contains txh = true)
    (happ : approvers.contains author = true) :
    ∃ l', execTx (.acceptMultisign author txh from_pk to_pk approvers seed)
        ch l = .ok l' ∧
      getWallet l' from_pk = some { s with
        pending_txs := removeFirst s.pending_txs txh
        balance := sub64 s.balance (sub64 s.balance s.pending_balance)
        history_len := s.history_len + 1
        history_hash := hashCombine s.history_hash txh } ∧
      getWallet l' to_pk = some { r with
        balance := add64 r.balance (sub64 s.balance s.pending_balance)
        history_len := r.history_len + 1
        history_hash := hashCombine r.history_hash txh } ∧
      ∀ k, k ≠ from_pk → k ≠ to_pk → getWallet l' k = getWallet l k := by
  have hks : s.pub_key = from_pk := getWallet_eq_key hs
  have hkr : r.pub_key = to_pk := getWallet_eq_key hr
  refine ⟨increase_wallet_balance
    (decrease_wallet_balance (putWallet l (s.delete_pending_tx txh))
      (s.delete_pending_tx txh)
      (sub64 (s.delete_pending_tx txh).balance
        (s.delete_pending_tx txh).pending_balance) txh)
    r (sub64 (s.delete_pending_tx txh).balance
        (s.delete_pending_tx txh).pending_balance) txh, ?_, ?_, ?_, ?_⟩
  · simp only [execTx, if_neg hne, hs, hr, hpend, happ]
    simp [remove_tx_from_wallet]
  · have h1 := getWallet_putWallet_same hs
      (show (s.delete_pending_tx txh).pub_key = from_pk by
        simp only [Wallet.delete_pending_tx_pub_key]; exact hks)
    have h2 := getWallet_putWallet_same h1
      (show ((s.delete_pending_tx txh).set_balance
          (sub64 (s.delete_pending_tx txh).balance
            (sub64 (s.delete_pending_tx txh).balance
              (s.delete_pending_tx txh).pending_balance))
          (hashCombine (s.delete_pending_tx txh).history_hash txh)).pub_key
          = from_pk by
        simp only [Wallet.set_balance_pub_key, Wallet.delete_pending_tx_pub_key]
        exact hks)
    simp only [increase_wallet_balance, decrease_wallet_balance]
    rw [getWallet_putWallet_ne (by
      simp only [Wallet.set_balance_pub_key, hkr]
      exact fun hc => hne hc.symm)]
    rw [h2]
    rfl
  · have g1 : getWallet (putWallet l (s.delete_pending_tx txh)) to_pk = some r := by
      rw [getWallet_putWallet_ne (by
        simp only [Wallet.delete_pending_tx_pub_key, hks]
        exact hne)]
      exact hr
    have g2 : getWallet (putWallet (putWallet l (s.delete_pending_tx txh))
        ((s.delete_pending_tx txh).set_balance
          (sub64 (s.delete_pending_tx txh).balance
            (sub64 (s.delete_pending_tx txh).balance
              (s.delete_pending_tx txh).pending_balance))
          (hashCombine (s.delete_pending_tx txh).history_hash txh))) to_pk
        = some r := by
      rw [getWallet_putWallet_ne (by
        simp only [Wallet.set_balance_pub_key, Wallet.delete_pending_tx_pub_key,
          hks]
        exact hne)]
      exact g1
    have g3 := getWallet_putWallet_same g2
      (show (r.set_balance
          (add64 r.balance (sub64 (s.delete_pending_tx txh).balance
            (s.delete_pending_tx txh).pending_balance))
          (hashCombine r.history_hash txh)).pub_key = to_pk by
        simp only [Wallet.set_balance_pub_key]; exact hkr)
    simp only [increase_wallet_balance, decrease_wallet_balance]
    rw [g3]
    rfl
  · intro k hka hkt
    simp only [increase_wallet_balance, decrease_wallet_balance]
    rw [getWallet_putWallet_ne (by
      simp only [Wallet.set_balance_pub_key, hkr]
      exact fun hc => hkt hc.symm)]
    rw [getWallet_putWallet_ne (by
      simp only [Wallet.set_balance_pub_key, Wallet.delete_pending_tx_pub_key,
        hks]
      exact fun hc => hka hc.symm)]
    rw [getWallet_putWallet_ne (by
      simp only [Wallet.delete_pending_tx_pub_key, hks]
      exact fun hc => hka hc.symm)]

/-- C5 counterexample: `lbad` is reachable (create wallets 1 and 2, issue
100 to wallet 1, then author two multisig proposals of 60 each), yet wallet
1 there has `pending_balance = 120 > balance = 100`: the invariant
`pending_balance ≤ balance` does not hold in all reachable states. -/
theorem pending_exceeds_balance_cex :
    Reachable lbad ∧ ¬ (∀ w, w ∈ lbad → w.pending_balance ≤ w.balance) :=
  ⟨lbad_reachable, by decide⟩

/-- C5 amended: in every reachable state every wallet's `balance` and
`pending_balance` are valid `u64` amounts (nonnegative and below `2 ^ 64`);
the stronger bound `pending_balance ≤ balance` is not an invariant. -/
theorem reachable_balances_valid_u64 {l : Ledger} (h : Reachable l)
    (w : Wallet) (hw : w ∈ l) :
    w.balance < U64 ∧ w.pending_balance < U64 :=
  reachable_wfLedger h w hw

/-- Witness for C5 amended at wallet 1 of the reachable state `lbad`. -/
theorem reachable_balances_valid_u64_witness :
    aliceBad.balance < U64 ∧ aliceBad.pending_balance < U64 :=
  reachable_balances_valid_u64 lbad_reachable aliceBad (by decide)

/-- C4 counterexample: on the reachable state `lbad` (wallet 1 has
`pending_balance = 120 > balance = 100`) the successful
`AcceptMultisign` of proposal 104 increases the sum of all balances by
`2 ^ 64`: the settled amount underflows and wraps, so conservation fails
for a successfully executed accept. -/
theorem conservation_cex :
    Reachable lbad ∧
    execTx (.acceptMultisign 3 104 1 2 [3] 9) 200 lbad = .ok lbad2 ∧
    totalBalance lbad2 = totalBalance lbad + 2 ^ 64 :=
  ⟨lbad_reachable, by decide, by decide⟩

/-- C4 amended: over a ledger with unique keys and valid `u64` balances,
any successful execution whose arithmetic stays in `u64` range
(`totalBalance + issued amount < 2 ^ 64`) and whose accepted sender (for
`AcceptMultisign`) satisfies `pending_balance ≤ balance` changes the sum of
all balances by exactly the issued amount: `Issue` adds `amount`, every
other kind — `Transfer`, `TransferMultisign`, `AcceptMultisign`,
`CreateWallet` — leaves the total unchanged. -/
theorem conservation_spec (l l' : Ledger) (tx : Tx) (ch : Nat)
    (hu : uniqKeys l) (hwf : wfLedger l)
    (htot : totalBalance l + issuedAmount tx < U64)
    (hacc : acceptPendingOk l tx)
    (hex : execTx tx ch l = .ok l') :
    totalBalance l' = totalBalance l + issuedAmount tx := by
  cases tx with
  | transfer author to_pk amount seed =>
    simp only [execTx] at hex
    split at hex
    · exact absurd hex (by simp)
    · rename_i hne
      split at hex
      · exact absurd hex (by simp)
      · rename_i s hs
        split at hex
        · exact absurd hex (by simp)
        · rename_i r hr
          split at hex
          · exact absurd hex (by simp)
          · rename_i hnlt
            simp only [Except.ok.injEq] at hex
            subst hex
            have hks : s.pub_key = author := getWallet_eq_key hs
            have hkr : r.pub_key = to_pk := getWallet_eq_key hr
            have hamt : amount ≤ s.balance := not_lt.mp hnlt
            have hsb : s.balance < U64 := (hwf s (getWallet_mem hs)).1
            simp only [issuedAmount] at htot ⊢
            have hrb : r.balance + amount < U64 := by
              have h2 := two_balances_le_totalBalance hu hs hr hne
              omega
            have e1 := totalBalance_putWallet hu hs
              (show (s.set_balance (sub64 s.balance amount)
                (hashCombine s.history_hash ch)).pub_key = author from hks)
            have g1 : getWallet (putWallet l (s.set_balance (sub64 s.balance amount)
                (hashCombine s.history_hash ch))) to_pk = some r := by
              rw [getWallet_putWallet_ne (by
                simp only [Wallet.set_balance_pub_key, hks]; exact hne)]
              exact hr
            have e2 := totalBalance_putWallet (uniqKeys_putWallet _ hu) g1
              (show (r.set_balance (add64 r.balance amount)
                (hashCombine r.history_hash ch)).pub_key = to_pk from hkr)
            simp only [Wallet.set_balance_balance] at e1 e2
            have hsub : sub64 s.balance amount = s.balance - amount :=
              sub64_eq hamt hsb
            have hadd : add64 r.balance amount = r.balance + amount :=
              add64_eq hrb
            show totalBalance (putWallet (putWallet l
              (s.set_balance (sub64 s.balance amount)
                (hashCombine s.history_hash ch)))
              (r.set_balance (add64 r.balance amount)
                (hashCombine r.history_hash ch))) = totalBalance l + 0
            omega
  | transferMultisign author from_pk to_pk approvers amount seed =>
    simp only [execTx] at hex
    split at hex
    · exact absurd hex (by simp)
    · split at hex
      · exact absurd hex (by simp)
      · split at hex
        · exact absurd hex (by simp)
        · rename_i s hs
          split at hex
          · exact absurd hex (by simp)
          · split at hex
            · exact absurd hex (by simp)
            · simp only [Except.ok.injEq] at hex
              subst hex
              have hks : s.pub_key = from_pk := getWallet_eq_key hs
              have e1 := totalBalance_putWallet hu hs
                (show (s.add_pending_tx ch).pub_key = from_pk from hks)
              have g1 : getWallet (putWallet l (s.add_pending_tx ch)) from_pk =
                  some (s.add_pending_tx ch) :=
                getWallet_putWallet_same hs
                  (show (s.add_pending_tx ch).pub_key = from_pk from hks)
              have e2 := totalBalance_putWallet (uniqKeys_putWallet _ hu) g1
                (show ((s.add_pending_tx ch).set_pending_balance
                  (add64 (s.add_pending_tx ch).pending_balance amount)).pub_key
                  = from_pk from hks)
              simp only [Wallet.add_pending_tx_balance,
                Wallet.set_pending_balance_balance] at e1 e2
              show totalBalance (putWallet (putWallet l (s.add_pending_tx ch))
                ((s.add_pending_tx ch).set_pending_balance
                  (add64 (s.add_pending_tx ch).pending_balance amount))) =
                totalBalance l + issuedAmount
                  (.transferMultisign author from_pk to_pk approvers amount seed)
              simp only [issuedAmount]
              omega
  | acceptMultisign author txh from_pk to_pk approvers seed =>
    simp only [execTx] at hex
    split at hex
    · exact absurd hex (by simp)
    · rename_i hne
      split at hex
      · exact absurd hex (by simp)
      · rename_i s hs
        split at hex
        · exact absurd hex (by simp)
        · rename_i r hr
          split at hex
          · split at hex
            · simp only [Except.ok.injEq] at hex
              subst hex
              have hks : s.pub_key = from_pk := getWallet_eq_key hs
              have hkr : r.pub_key = to_pk := getWallet_eq_key hr
              simp only [acceptPendingOk, hs] at hacc
              have hsb : s.balance < U64 := (hwf s (getWallet_mem hs)).1
              simp only [issuedAmount] at htot ⊢
              show totalBalance (putWallet (putWallet (putWallet l
                (s.delete_pending_tx txh))
                ((s.delete_pending_tx txh).set_balance
                  (sub64 (s.delete_pending_tx txh).balance
                    (sub64 (s.delete_pending_tx txh).balance
                      (s.delete_pending_tx txh).pending_balance))
                  (hashCombine (s.delete_pending_tx txh).history_hash txh)))
                (r.set_balance
                  (add64 r.balance (sub64 (s.delete_pending_tx txh).balance
                    (s.delete_pending_tx txh).pending_balance))
                  (hashCombine r.history_hash txh))) = totalBalance l + 0
              simp only [Wallet.delete_pending_tx_balance,
                Wallet.delete_pending_tx_pending_balance,
                Wallet.delete_pending_tx_history_hash]
              have hk1 : (s.delete_pending_tx txh).pub_key = from_pk := by
                simp only [Wallet.delete_pending_tx_pub_key]; exact hks
              have e1 := totalBalance_putWallet hu hs hk1
              have g1 : getWallet (putWallet l (s.delete_pending_tx txh)) from_pk =
                  some (s.delete_pending_tx txh) :=
                getWallet_putWallet_same hs hk1
              have e2 := totalBalance_putWallet (uniqKeys_putWallet _ hu) g1
                (show ((s.delete_pending_tx txh).set_balance
                  (sub64 s.balance (sub64 s.balance s.pending_balance))
                  (hashCombine s.history_hash txh)).pub_key = from_pk from hks)
              have g2 : getWallet (putWallet (putWallet l (s.delete_pending_tx txh))
                  ((s.delete_pending_tx txh).set_balance
                    (sub64 s.balance (sub64 s.balance s.pending_balance))
                    (hashCombine s.history_hash txh))) to_pk = some r := by
                rw [getWallet_putWallet_ne (by
                  simp only [Wallet.set_balance_pub_key,
                    Wallet.delete_pending_tx_pub_key, hks]
                  exact hne)]
                rw [getWallet_putWallet_ne (by
                  simp only [Wallet.delete_pending_tx_pub_key, hks]
                  exact hne)]
                exact hr
              have e3 := totalBalance_putWallet
                (uniqKeys_putWallet _ (uniqKeys_putWallet _ hu)) g2
                (show (r.set_balance
                  (add64 r.balance (sub64 s.balance s.pending_balance))
                  (hashCombine r.history_hash txh)).pub_key = to_pk from hkr)
              simp only [Wallet.delete_pending_tx_balance,
                Wallet.set_balance_balance] at e1 e2 e3
              have hset : sub64 s.balance s.pending_balance =
                  s.balance - s.pending_balance := sub64_eq hacc hsb
              have h5 : sub64 s.balance (sub64 s.balance s.pending_balance) =
                  s.pending_balance := by
                rw [hset, sub64_eq (by omega) hsb]
                omega
              have hadd : add64 r.balance (sub64 s.balance s.pending_balance) =
                  r.balance + (s.balance - s.pending_balance) := by
                rw [hset]
                apply add64_eq
                have h2 := two_balances_le_totalBalance hu hs hr hne
                omega
              omega
            · exact absurd hex (by simp)
          · simp only [Except.ok.injEq] at hex
            subst hex
            simp only [issuedAmount]
            omega
  | issue author amount seed =>
    simp only [execTx] at hex
    split at hex
    · rename_i w hw
      simp only [Except.ok.injEq] at hex
      subst hex
      have hkw : w.pub_key = author := getWallet_eq_key hw
      have e1 := totalBalance_putWallet hu hw
        (show (w.set_balance (add64 w.balance amount)
          (hashCombine w.history_hash ch)).pub_key = author from hkw)
      simp only [Wallet.set_balance_balance] at e1
      have hwt : w.balance ≤ totalBalance l :=
        balance_le_totalBalance (getWallet_mem hw)
      simp only [issuedAmount] at htot ⊢
      have hadd : add64 w.balance amount = w.balance + amount :=
        add64_eq (by omega)
      show totalBalance (putWallet l (w.set_balance (add64 w.balance amount)
        (hashCombine w.history_hash ch))) = totalBalance l + amount
      omega
    · exact absurd hex (by simp)
  | createWallet author name =>
    simp only [execTx] at hex
    split at hex
    · simp only [Except.ok.injEq] at hex
      subst hex
      show totalBalance (create_wallet l author name ch) =
        totalBalance l + issuedAmount (.createWallet author name)
      unfold create_wallet
      rw [totalBalance_append]
      simp [totalBalance, issuedAmount]
    · exact absurd hex (by simp)

/-- Witness for C4 amended: issuing 100 to wallet 1 on `demo2` grows the
total by exactly 100 (the step from `demo2` to `demo3`). -/
theorem conservation_spec_witness :
    totalBalance demo3 = totalBalance demo2 + issuedAmount (.issue 1 100 0) :=
  conservation_spec demo2 demo3 (.issue 1 100 0) 103
    (by decide) (by decide) (by decide) (by trivial) (by decide)

/-- Witness for C1 at `demo4`: approver 3 accepts the outstanding proposal
104 from wallet 1 to wallet 2 (balance 100, pending 60, settled 40). -/
theorem accept_execution_spec_witness :
    ∃ l', execTx (.acceptMultisign 3 104 1 2 [3] 5) 400 demo4 = .ok l' ∧
      getWallet l' 1 = some { aliceD4 with
        pending_txs := removeFirst aliceD4.pending_txs 104
        balance := sub64 aliceD4.balance
          (sub64 aliceD4.balance aliceD4.pending_balance)
        history_len := aliceD4.history_len + 1
        history_hash := hashCombine aliceD4.history_hash 104 } ∧
      getWallet l' 2 = some { bobD3 with
        balance := add64 bobD3.balance
          (sub64 aliceD4.balance aliceD4.pending_balance)
        history_len := bobD3.history_len + 1
        history_hash := hashCombine bobD3.history_hash 104 } ∧
      ∀ k, k ≠ 1 → k ≠ 2 → getWallet l' k = getWallet demo4 k :=
  accept_execution_spec demo4 3 104 1 2 [3] 5 400 aliceD4 bobD3
    (by decide) (by decide) (by decide) (by decide) (by decide)

end ExonumLedger
